import Mathlib

/-!
Shallow embedding of the tsd-lite assertion-extraction and
diagnostic-reconciliation engine.

The embedding follows the two source files:
* `tsdLite.ts` — the diagnostic code sets, `isDiagnosticWithLocation`,
  `isIgnoredDiagnostic` and the `tsdLite` pipeline;
* `parser.ts` — `extractAssertions` and `parseErrorAssertionToLocation`.

External collaborators (`resolveCompilerOptions`, the TypeScript program and
its diagnostic lists, `handleAssertions`) are modelled as inputs of the
pipeline; their outputs are fields of `TsdLiteInput`.

JavaScript `Map`s keyed by object identity are modelled as lists in insertion
order, with an entry's identity given by its position in the list; the
classifier therefore reports the *position* of the matched index entry, which
is exactly the information the object identity of the returned `Location`
carries in the source.
-/

namespace TsdLite

/-- A source span, mirroring `Location` from `types.ts`:
`{fileName, start, end}` with character offsets into one file. -/
structure Location where
  fileName : String
  start : Nat
  «end» : Nat
deriving DecidableEq, Repr

/-- The data of an extracted `ts.CallExpression` node that the engine reads:
its source file's name (`node.getSourceFile().fileName`), `node.getStart()`
and `node.getEnd()`. -/
structure CallExpression where
  fileName : String
  start : Nat
  endPos : Nat
deriving DecidableEq, Repr

/-- A `ts.Diagnostic`: code, optional originating file (`diagnostic.file`,
kept as its `fileName`), start offset and message. `start` is only meaningful
when `file` is present, as in the TypeScript API. -/
structure Diagnostic where
  code : Nat
  file : Option String
  start : Nat
  messageText : String
deriving DecidableEq, Repr

/-- A `ts.DiagnosticWithLocation`: same data with the file known. -/
structure DiagnosticWithLocation where
  code : Nat
  fileName : String
  start : Nat
  messageText : String
deriving DecidableEq, Repr

/-- `isDiagnosticWithLocation`: the type guard `diagnostic.file !== undefined`. -/
def isDiagnosticWithLocation (diagnostic : Diagnostic) : Bool :=
  diagnostic.file.isSome

/-- The narrowing the type guard performs: the same diagnostic viewed as a
`DiagnosticWithLocation` when its `file` is present. -/
def Diagnostic.withLocation (d : Diagnostic) : Option DiagnosticWithLocation :=
  d.file.map (fun fileName => ⟨d.code, fileName, d.start, d.messageText⟩)

/-- `ignoredDiagnostics`: diagnostic codes ignored in general —
`AwaitExpressionOnlyAllowedWithinAsyncFunction` (1308) and
`TopLevelAwaitOnlyAllowedWhenModuleESNextOrSystem` (1378). -/
def ignoredDiagnostics : List Nat := [1308, 1378]

/-- `expectErrorDiagnosticCodesToIgnore`: diagnostic codes which may be
ignored inside `expectError` statements, in the source's insertion order:
2345 ArgumentTypeIsNotAssignableToParameterType,
2339 PropertyDoesNotExistOnType,
2540 CannotAssignToReadOnlyProperty,
2322 TypeIsNotAssignableToOtherType,
2344 TypeDoesNotSatisfyTheConstraint,
2314 GenericTypeRequiresTypeArguments,
2554 ExpectedArgumentsButGotOther,
2555 ExpectedAtLeastArgumentsButGotOther,
2575 NoOverloadExpectsCountOfArguments,
2743 NoOverloadExpectsCountOfTypeArguments,
2769 NoOverloadMatches,
2741 PropertyMissingInType1ButRequiredInType2,
2559 TypeHasNoPropertiesInCommonWith,
2684 ThisContextOfTypeNotAssignableToMethodOfThisType,
2348 ValueOfTypeNotCallable,
2349 ExpressionNotCallable,
2350 OnlyVoidFunctionIsNewCallable,
2351 ExpressionNotConstructable,
7009 NewExpressionTargetLackingConstructSignatureHasAnyType,
4113 MemberCannotHaveOverrideModifierBecauseItIsNotDeclaredInBaseClass,
4114 MemberMustHaveOverrideModifier,
2820 StringLiteralTypeIsNotAssignableToUnionTypeWithSuggestion. -/
def expectErrorDiagnosticCodesToIgnore : List Nat :=
  [2345, 2339, 2540, 2322, 2344, 2314, 2554, 2555, 2575, 2743, 2769, 2741,
   2559, 2684, 2348, 2349, 2350, 2351, 7009, 4113, 4114, 2820]

/-- Outcome of `isIgnoredDiagnostic`: the source returns the string
`"ignore"`, the string `"preserve"`, or the matched `Location` object itself;
the latter is encoded by the matched entry's position in the index. -/
inductive IgnoreDiagnosticResult where
  | ignore
  | preserve
  | location (index : Nat)
deriving DecidableEq, Repr

/-- The containment test of the classifier's scan, as written in the source:
`diagnosticFileName === location.fileName && diagnosticStart > location.start
&& diagnosticStart < location.end` — the diagnostic's file equals the entry's
file and the entry's span strictly contains the diagnostic's start (both
bounds exclusive). -/
def ContainsStart (location : Location) (fileName : String) (dStart : Nat) : Prop :=
  fileName = location.fileName ∧ location.start < dStart ∧ dStart < location.«end»

instance (location : Location) (fileName : String) (dStart : Nat) :
    Decidable (ContainsStart location fileName dStart) := by
  unfold ContainsStart
  infer_instance

/-- The `for (const [location] of expectedErrors)` scan inside
`isIgnoredDiagnostic`: first entry whose file equals the diagnostic's file
and whose span strictly contains the diagnostic's start, reported by
position. -/
def findMatchingLocation (fileName : String) (dStart : Nat) :
    List (Location × CallExpression) → Option Nat
  | [] => none
  | (location, _) :: rest =>
    if ContainsStart location fileName dStart then
      some 0
    else
      (findMatchingLocation fileName dStart rest).map (· + 1)

/-- `isIgnoredDiagnostic(diagnostic, expectedErrors)` from `tsdLite.ts`. -/
def isIgnoredDiagnostic (diagnostic : DiagnosticWithLocation)
    (expectedErrors : List (Location × CallExpression)) : IgnoreDiagnosticResult :=
  if ignoredDiagnostics.contains diagnostic.code then
    .ignore
  else if !(expectErrorDiagnosticCodesToIgnore.contains diagnostic.code) then
    .preserve
  else
    match findMatchingLocation diagnostic.fileName diagnostic.start expectedErrors with
    | some i => .location i
    | none => .preserve

/-- A character matched by the regex class `[/\\]`. -/
def isPathSep (c : Char) : Bool := c = '/' || c = '\\'

/-- Match a literal character sequence at the head of a character list,
returning the remainder on success. -/
def dropLit : List Char → List Char → Option (List Char)
  | [], cs => some cs
  | _ :: _, [] => none
  | p :: ps, c :: cs => if c = p then dropLit ps cs else none

/-- Does the character list contain an occurrence of
`[/\\]node_modules[/\\]`? -/
def hasNodeModulesSegment : List Char → Bool
  | [] => false
  | c :: rest =>
    (isPathSep c &&
      (match dropLit "node_modules".data rest with
       | some (c2 :: _) => isPathSep c2
       | _ => false))
    || hasNodeModulesSegment rest

/-- The test `/[/\\]node_modules[/\\]/.test(fileName)` from the pipeline. -/
def matchesNodeModulesRegex (fileName : String) : Bool :=
  hasNodeModulesSegment fileName.data

/-- Modelled from the spec: the closed enumeration `Assertion` lives in the
assertion-evaluation module (`handleAssertions`), which is not among the
sources shown; the spec fixes only that it is a closed enumeration of fixed
textual identifiers with one distinguished member denoting "expect a type
error at this call", the others denoting positive checks delegated to the
external evaluator. -/
inductive Assertion where
  | EXPECT_ERROR
  | EXPECT_TYPE
  | EXPECT_NOT_TYPE
  | EXPECT_ASSIGNABLE
  | EXPECT_NOT_ASSIGNABLE
deriving DecidableEq, Repr

/-- Modelled from the spec: the textual identifier of each assertion kind
(the enum member's string value, matched against callee text). -/
def Assertion.value : Assertion → String
  | .EXPECT_ERROR => "expectError"
  | .EXPECT_TYPE => "expectType"
  | .EXPECT_NOT_TYPE => "expectNotType"
  | .EXPECT_ASSIGNABLE => "expectAssignable"
  | .EXPECT_NOT_ASSIGNABLE => "expectNotAssignable"

/-- All members of the closed enumeration. -/
def Assertion.all : List Assertion :=
  [.EXPECT_ERROR, .EXPECT_TYPE, .EXPECT_NOT_TYPE, .EXPECT_ASSIGNABLE,
   .EXPECT_NOT_ASSIGNABLE]

/-- `assertionFnNames = new Set(Object.values(Assertion))` from `parser.ts`. -/
def assertionFnNames : List String := Assertion.all.map Assertion.value

/-- The combination of `assertionFnNames.has(identifier)` with the cast
`identifier as Assertion`: the assertion kind whose identifier equals the
given callee text, when there is one. -/
def assertionOfString (s : String) : Option Assertion :=
  Assertion.all.find? (fun a => a.value = s)

/-- The data of a `ts.Node` that the extractor reads: whether it is a call
expression, the callee's text (`node.expression.getText()`, meaningful only
for call expressions), `getStart()`, `getEnd()` and the children visited by
`ts.forEachChild`. -/
inductive TsNode where
  | mk (isCallExpression : Bool) (calleeText : String) (start : Nat)
      (endPos : Nat) (children : List TsNode)

def TsNode.isCallExpression : TsNode → Bool
  | .mk b _ _ _ _ => b

def TsNode.calleeText : TsNode → String
  | .mk _ s _ _ _ => s

def TsNode.start : TsNode → Nat
  | .mk _ _ s _ _ => s

def TsNode.endPos : TsNode → Nat
  | .mk _ _ _ e _ => e

def TsNode.children : TsNode → List TsNode
  | .mk _ _ _ _ cs => cs

/-- A `ts.SourceFile` of the program: its file name and its syntax tree. -/
structure SourceFile where
  fileName : String
  root : TsNode

/-- The per-kind collections of extracted call expressions, mirroring the
`Map<Assertion, Set<ts.CallExpression>>` of `extractAssertions`: an
association list in key-insertion order, each value list in node-insertion
order (the `Set` is keyed by node identity and each tree node is visited
once, so a list of occurrences is exact). -/
abbrev AssertionMap := List (Assertion × List CallExpression)

/-- `assertions.get(assertion)`: association-list lookup. -/
def lookupAssertion (a : Assertion) : AssertionMap → Option (List CallExpression)
  | [] => none
  | (k, ns) :: rest => if k = a then some ns else lookupAssertion a rest

/-- The body of the match branch of `visit`:
`nodes = assertions.get(assertion) ?? new Set(); nodes.add(node);
assertions.set(assertion, nodes)` — append the node to the kind's
collection, keeping key-insertion order. -/
def insertAssertion (m : AssertionMap) (a : Assertion) (n : CallExpression) :
    AssertionMap :=
  match m with
  | [] => [(a, [n])]
  | (k, ns) :: rest =>
    if k = a then (k, ns ++ [n]) :: rest else (k, ns) :: insertAssertion rest a n

mutual

/-- `visit(node)` from `extractAssertions`: record the node when it is a call
expression whose callee text is a recognized assertion identifier, then
`ts.forEachChild(node, visit)`. -/
def visit (fileName : String) (acc : AssertionMap) : TsNode → AssertionMap
  | .mk isCall callee s e children =>
    let acc2 :=
      if isCall then
        match assertionOfString callee with
        | some assertion => insertAssertion acc assertion ⟨fileName, s, e⟩
        | none => acc
      else acc
    visitList fileName acc2 children

/-- `visit` folded over a child list, left to right. -/
def visitList (fileName : String) (acc : AssertionMap) : List TsNode → AssertionMap
  | [] => acc
  | n :: rest => visitList fileName (visit fileName acc n) rest

end

/-- The return value of `extractAssertions`. -/
structure ExtractedAssertions where
  assertions : AssertionMap
  assertionCount : Nat
deriving DecidableEq, Repr

/-- `extractAssertions(program)` from `parser.ts`: visit every source file of
the program, then sum the per-kind collection sizes. -/
def extractAssertions (program : List SourceFile) : ExtractedAssertions :=
  let assertions :=
    program.foldl (fun acc sourceFile => visit sourceFile.fileName acc sourceFile.root) []
  ⟨assertions, assertions.foldl (fun count p => count + p.2.length) 0⟩

/-- `parseErrorAssertionToLocation(assertions)` from `parser.ts`: the
`EXPECT_ERROR` collection turned into the Expected-Error Index, a map from a
freshly built `Location` to the assertion node, in collection order. -/
def parseErrorAssertionToLocation (assertions : AssertionMap) :
    List (Location × CallExpression) :=
  match lookupAssertion Assertion.EXPECT_ERROR assertions with
  | none => []
  | some nodes =>
    nodes.map (fun node => (⟨node.fileName, node.start, node.endPos⟩, node))

/-- An element of the `tsdResults` array: a result from the external
evaluator `handleAssertions` (opaque here), a semantic diagnostic pushed as a
failure, or a spread assertion node with an overriding `messageText`
(`{...error, messageText}`). -/
inductive TsdResult where
  | evaluatorResult (id : Nat)
  | diagnostic (d : DiagnosticWithLocation)
  | assertionWithMessage (node : CallExpression) (messageText : String)
deriving DecidableEq, Repr

/-- The fixed message of a synthetic "missing expected error" failure. -/
def expectedErrorNotFoundMessage : String := "Expected an error, but found none."

/-- The `for (const diagnostic of semanticDiagnostics)` loop of `tsdLite`:
skip diagnostics without a file, skip diagnostics from `node_modules` paths,
classify the rest; `preserve` pushes the diagnostic onto `tsdResults`, a
matched location is pushed onto
`expectedErrorsLocationsWithFoundDiagnostics`, `ignore` does nothing. -/
def reconcileDiagnostics (expectedErrors : List (Location × CallExpression)) :
    List Diagnostic → List TsdResult → List Nat → List TsdResult × List Nat
  | [], tsdResults, found => (tsdResults, found)
  | diagnostic :: rest, tsdResults, found =>
    match diagnostic.withLocation with
    | none => reconcileDiagnostics expectedErrors rest tsdResults found
    | some dl =>
      if matchesNodeModulesRegex dl.fileName then
        reconcileDiagnostics expectedErrors rest tsdResults found
      else
        match isIgnoredDiagnostic dl expectedErrors with
        | .ignore => reconcileDiagnostics expectedErrors rest tsdResults found
        | .location i => reconcileDiagnostics expectedErrors rest tsdResults (found ++ [i])
        | .preserve =>
          reconcileDiagnostics expectedErrors rest (tsdResults ++ [.diagnostic dl]) found

/-- The `expectedErrors.delete(...)` loop: remove every index entry whose
identity (position, counted from `i`) occurs in the found list; remaining
entries keep their order. -/
def removeMatchedEntries (found : List Nat) :
    Nat → List (Location × CallExpression) → List (Location × CallExpression)
  | _, [] => []
  | i, e :: rest =>
    if found.contains i then removeMatchedEntries found (i + 1) rest
    else e :: removeMatchedEntries found (i + 1) rest

/-- The outputs of the external collaborators that `tsdLite` consumes:
`resolveCompilerOptions` (its `configDiagnostics`), the TypeScript program
(its syntactic and semantic diagnostic lists and its source files) and
`handleAssertions` (its result array, opaque to this core). -/
structure TsdLiteInput where
  configDiagnostics : List Diagnostic
  syntacticDiagnostics : List Diagnostic
  semanticDiagnostics : List Diagnostic
  program : List SourceFile
  handleAssertionsResults : List TsdResult

/-- The return shape of `tsdLite`; `tsdErrors` is `none` exactly when the
source object has no `tsdErrors` key. -/
structure TsdLiteReturn where
  assertionCount : Nat
  tsdResults : List TsdResult
  tsdErrors : Option (List Diagnostic)
deriving DecidableEq, Repr

/-- `tsdLite(testFilePath)` from `tsdLite.ts`, as a function of the
collaborators' outputs. -/
def tsdLite (input : TsdLiteInput) : TsdLiteReturn :=
  if input.configDiagnostics.length ≠ 0 then
    ⟨0, [], some input.configDiagnostics⟩
  else if input.syntacticDiagnostics.length ≠ 0 then
    ⟨0, [], some input.syntacticDiagnostics⟩
  else
    let extracted := extractAssertions input.program
    let expectedErrors := parseErrorAssertionToLocation extracted.assertions
    let step :=
      reconcileDiagnostics expectedErrors input.semanticDiagnostics
        input.handleAssertionsResults []
    let remaining := removeMatchedEntries step.2 0 expectedErrors
    ⟨extracted.assertionCount,
     step.1 ++ remaining.map (fun e =>
       TsdResult.assertionWithMessage e.2 expectedErrorNotFoundMessage),
     none⟩

/-! ## Observers used to state the claims -/

/-- What one iteration of the reconciliation loop contributes to
`tsdResults`: the diagnostic itself when it reaches the classifier and is
preserved, nothing otherwise. -/
def preservedOf (expectedErrors : List (Location × CallExpression))
    (d : Diagnostic) : Option DiagnosticWithLocation :=
  match d.withLocation with
  | none => none
  | some dl =>
    if matchesNodeModulesRegex dl.fileName then none
    else
      match isIgnoredDiagnostic dl expectedErrors with
      | .preserve => some dl
      | _ => none

/-- What one iteration of the reconciliation loop contributes to the found
list: the position of the matched index entry when the diagnostic reaches the
classifier and matches, nothing otherwise. -/
def matchedIndexOf (expectedErrors : List (Location × CallExpression))
    (d : Diagnostic) : Option Nat :=
  match d.withLocation with
  | none => none
  | some dl =>
    if matchesNodeModulesRegex dl.fileName then none
    else
      match isIgnoredDiagnostic dl expectedErrors with
      | .location i => some i
      | _ => none

/-- The Expected-Error Index the pipeline builds from a program. -/
def expectedErrorIndex (program : List SourceFile) :
    List (Location × CallExpression) :=
  parseErrorAssertionToLocation (extractAssertions program).assertions

/-- Entry at position `i` of the index is matched by at least one diagnostic
of the list. -/
def MatchedByAny (expectedErrors : List (Location × CallExpression))
    (diags : List Diagnostic) (i : Nat) : Prop :=
  ∃ d ∈ diags, matchedIndexOf expectedErrors d = some i

instance (expectedErrors : List (Location × CallExpression))
    (diags : List Diagnostic) (i : Nat) :
    Decidable (MatchedByAny expectedErrors diags i) := by
  unfold MatchedByAny
  infer_instance

/-- The index entries at positions (counted from `k`) not satisfying `p`, in
order. -/
def entriesNotSatisfying (p : Nat → Bool) :
    Nat → List (Location × CallExpression) → List (Location × CallExpression)
  | _, [] => []
  | k, e :: rest =>
    if p k then entriesNotSatisfying p (k + 1) rest
    else e :: entriesNotSatisfying p (k + 1) rest

/-- Node `n` occurs in the tree rooted at `t`: reflexively, or inside one of
`t`'s children (the reachability of the pre-order traversal). -/
inductive OccursIn : TsNode → TsNode → Prop
  | refl (t : TsNode) : OccursIn t t
  | child {n c t : TsNode} (hc : c ∈ t.children) (h : OccursIn n c) : OccursIn n t

/-- The call-expression record `x` is present in the collection that the
extraction map holds for kind `a`. -/
def MemAssertion (a : Assertion) (x : CallExpression) (m : AssertionMap) : Prop :=
  ∃ ns, lookupAssertion a m = some ns ∧ x ∈ ns

/-- Example test file: its tree holds one `expectError` assertion spanning
offsets 10–30 around an inner (unrecognized) call. -/
def exampleFile : SourceFile :=
  ⟨"a.ts", .mk false "" 0 100 [.mk true "expectError" 10 30 [.mk true "f" 22 28 []]]⟩

/-- Example pipeline input: both gates pass; one suppressible diagnostic
(2345) starts inside the expectation span and one suppressible diagnostic
(2322) starts outside it; the external evaluator returned one result. -/
def exampleInput : TsdLiteInput :=
  ⟨[], [], [⟨2345, some "a.ts", 23, "boom"⟩, ⟨2322, some "a.ts", 50, "other"⟩],
   [exampleFile], [.evaluatorResult 0]⟩

/-- Example pipeline input with no semantic diagnostics at all: the
expectation of `exampleFile` goes unmatched. -/
def exampleInputNoDiag : TsdLiteInput :=
  ⟨[], [], [], [exampleFile], []⟩

/-- Example pipeline input whose only semantic diagnostic starts inside the
expectation span of `exampleFile` but carries the non-suppressible code 2304
("cannot find name"). -/
def exampleInputUnsuppressible : TsdLiteInput :=
  ⟨[], [], [⟨2304, some "a.ts", 23, "boom"⟩], [exampleFile], []⟩

/-! ## Basic lemmas about the embedding -/

lemma contains_eq_decide_mem (l : List Nat) (i : Nat) :
    l.contains i = decide (i ∈ l) := by
  induction l with
  | nil => rfl
  | cons a as ih =>
    by_cases h : i = a <;> simp [List.contains_cons, h, ih]

lemma findMatchingLocation_eq_some_iff (fileName : String) (dStart : Nat) :
    ∀ (l : List (Location × CallExpression)) (i : Nat),
      findMatchingLocation fileName dStart l = some i ↔
        ∃ e, l[i]? = some e ∧ ContainsStart e.1 fileName dStart ∧
          ∀ j, j < i → ∀ e', l[j]? = some e' →
            ¬ ContainsStart e'.1 fileName dStart := by
  intro l
  induction l with
  | nil => intro i; simp [findMatchingLocation]
  | cons e rest ih =>
    intro i
    obtain ⟨location, node⟩ := e
    by_cases hc : ContainsStart location fileName dStart
    · simp only [findMatchingLocation, if_pos hc]
      constructor
      · intro h
        obtain rfl : (0 : Nat) = i := Option.some.inj h
        exact ⟨(location, node), by simp, hc, by omega⟩
      · rintro ⟨e', he', hce', hfirst⟩
        cases i with
        | zero => rfl
        | succ i' =>
          exact absurd hc (hfirst 0 (Nat.succ_pos i') (location, node) (by simp))
    · simp only [findMatchingLocation, if_neg hc]
      cases i with
      | zero =>
        simp only [List.getElem?_cons_zero, Option.map_eq_some']
        constructor
        · rintro ⟨i', -, h⟩
          exact absurd h (by simp)
        · rintro ⟨e', he', hce', -⟩
          cases he'
          exact absurd hce' hc
      | succ i' =>
        rw [Option.map_eq_some']
        constructor
        · rintro ⟨k, hk, hki⟩
          obtain rfl : i' = k := by omega
          obtain ⟨e', he', hce', hfirst⟩ := (ih i').mp hk
          refine ⟨e', by simpa using he', hce', ?_⟩
          intro j hj e'' he''
          cases j with
          | zero =>
            simp only [List.getElem?_cons_zero] at he''
            cases he''
            exact hc
          | succ j' =>
            exact hfirst j' (by omega) e'' (by simpa using he'')
        · rintro ⟨e', he', hce', hfirst⟩
          refine ⟨i', (ih i').mpr ⟨e', by simpa using he', hce', ?_⟩, rfl⟩
          intro j hj e'' he''
          exact hfirst (j + 1) (by omega) e'' (by simpa using he'')

lemma findMatchingLocation_eq_none_iff (fileName : String) (dStart : Nat) :
    ∀ (l : List (Location × CallExpression)),
      findMatchingLocation fileName dStart l = none ↔
        ∀ e ∈ l, ¬ ContainsStart e.1 fileName dStart := by
  intro l
  induction l with
  | nil => simp [findMatchingLocation]
  | cons e rest ih =>
    obtain ⟨location, node⟩ := e
    by_cases hc : ContainsStart location fileName dStart
    · simp only [findMatchingLocation, if_pos hc]
      constructor
      · intro h; exact Option.noConfusion h
      · intro h; exact absurd hc (h (location, node) (List.mem_cons_self _ _))
    · simp only [findMatchingLocation, if_neg hc, Option.map_eq_none', ih]
      constructor
      · intro h e' he'
        rcases List.mem_cons.mp he' with rfl | hmem
        · exact hc
        · exact h e' hmem
      · intro h e' he'
        exact h e' (List.mem_cons_of_mem _ he')

/-- The two code sets are disjoint: no suppressible-inside-expectation code is
globally ignored. -/
lemma suppressible_not_globally_ignored :
    ∀ c ∈ expectErrorDiagnosticCodesToIgnore, c ∉ ignoredDiagnostics := by
  decide

/-- The reconciliation loop, characterized pointwise: its result list is the
initial one followed by the preserved diagnostics in order, and its found
list is the initial one followed by the matched index positions in order. -/
lemma reconcileDiagnostics_eq (expectedErrors : List (Location × CallExpression)) :
    ∀ (diags : List Diagnostic) (tsdResults : List TsdResult) (found : List Nat),
      reconcileDiagnostics expectedErrors diags tsdResults found =
        (tsdResults ++
           (diags.filterMap (preservedOf expectedErrors)).map TsdResult.diagnostic,
         found ++ diags.filterMap (matchedIndexOf expectedErrors)) := by
  intro diags
  induction diags with
  | nil => intro tsdResults found; simp [reconcileDiagnostics]
  | cons d rest ih =>
    intro tsdResults found
    simp only [reconcileDiagnostics, List.filterMap_cons]
    cases hwl : d.withLocation with
    | none =>
      simp [preservedOf, matchedIndexOf, hwl, ih]
    | some dl =>
      cases hnm : matchesNodeModulesRegex dl.fileName with
      | true =>
        simp [preservedOf, matchedIndexOf, hwl, hnm, ih]
      | false =>
        cases hig : isIgnoredDiagnostic dl expectedErrors with
        | ignore =>
          simp [preservedOf, matchedIndexOf, hwl, hnm, hig, ih]
        | preserve =>
          simp [preservedOf, matchedIndexOf, hwl, hnm, hig, ih]
        | location i =>
          simp [preservedOf, matchedIndexOf, hwl, hnm, hig, ih]

/-- The removal loop removes exactly the entries whose position is matched by
some diagnostic of the list fed to the reconciliation loop. -/
lemma removeMatchedEntries_filterMap_eq (expectedErrors : List (Location × CallExpression))
    (diags : List Diagnostic) :
    ∀ (l : List (Location × CallExpression)) (k : Nat),
      removeMatchedEntries (diags.filterMap (matchedIndexOf expectedErrors)) k l =
        entriesNotSatisfying (fun i => decide (MatchedByAny expectedErrors diags i)) k l := by
  intro l
  induction l with
  | nil => intro k; rfl
  | cons e rest ih =>
    intro k
    have hbridge : (diags.filterMap (matchedIndexOf expectedErrors)).contains k =
        decide (MatchedByAny expectedErrors diags k) := by
      rw [contains_eq_decide_mem]
      apply decide_eq_decide.mpr
      rw [List.mem_filterMap]
      constructor
      · rintro ⟨d, hd, hmd⟩; exact ⟨d, hd, hmd⟩
      · rintro ⟨d, hd, hmd⟩; exact ⟨d, hd, hmd⟩
    simp only [removeMatchedEntries, entriesNotSatisfying, hbridge, ih]

/-- The completed pipeline (both gates passed), in closed form: evaluator
results, then the preserved diagnostics in order, then one synthetic failure
per index entry not matched by any semantic diagnostic, in index order. -/
lemma tsdLite_completed (input : TsdLiteInput)
    (h1 : input.configDiagnostics = []) (h2 : input.syntacticDiagnostics = []) :
    tsdLite input =
      ⟨(extractAssertions input.program).assertionCount,
       input.handleAssertionsResults
         ++ (input.semanticDiagnostics.filterMap
               (preservedOf (expectedErrorIndex input.program))).map TsdResult.diagnostic
         ++ (entriesNotSatisfying
               (fun i => decide (MatchedByAny (expectedErrorIndex input.program)
                  input.semanticDiagnostics i))
               0 (expectedErrorIndex input.program)).map
             (fun e => TsdResult.assertionWithMessage e.2 expectedErrorNotFoundMessage),
       none⟩ := by
  unfold tsdLite
  rw [if_neg (by simp [h1]), if_neg (by simp [h2])]
  simp only [expectedErrorIndex, reconcileDiagnostics_eq, List.nil_append,
    removeMatchedEntries_filterMap_eq, List.append_assoc]

/-- A diagnostic the classifier matches is not preserved. -/
lemma preservedOf_eq_none_of_matched (expectedErrors : List (Location × CallExpression))
    (d : Diagnostic) (i : Nat) (h : matchedIndexOf expectedErrors d = some i) :
    preservedOf expectedErrors d = none := by
  cases hwl : d.withLocation with
  | none => simp [preservedOf, hwl]
  | some dl =>
    cases hnm : matchesNodeModulesRegex dl.fileName with
    | true => simp [preservedOf, hwl, hnm]
    | false =>
      cases hig : isIgnoredDiagnostic dl expectedErrors with
      | ignore => simp [preservedOf, hwl, hnm, hig]
      | preserve =>
        exfalso
        simp [matchedIndexOf, hwl, hnm, hig] at h
      | location j => simp [preservedOf, hwl, hnm, hig]

/-- A predicate false everywhere filters out nothing. -/
lemma entriesNotSatisfying_of_false (p : Nat → Bool) (hp : ∀ i, p i = false) :
    ∀ (k : Nat) (l : List (Location × CallExpression)),
      entriesNotSatisfying p k l = l := by
  intro k l
  induction l generalizing k with
  | nil => rfl
  | cons e rest ih => simp [entriesNotSatisfying, hp, ih]

/-- The classifier ignores every diagnostic whose code is globally ignored,
whatever the index. -/
lemma isIgnoredDiagnostic_eq_ignore (dl : DiagnosticWithLocation)
    (hig : dl.code ∈ ignoredDiagnostics)
    (expectedErrors : List (Location × CallExpression)) :
    isIgnoredDiagnostic dl expectedErrors = .ignore := by
  unfold isIgnoredDiagnostic
  rw [contains_eq_decide_mem, decide_eq_true hig]
  simp

/-- The classifier preserves every diagnostic whose code is neither globally
ignored nor suppressible, whatever the index. -/
lemma isIgnoredDiagnostic_eq_preserve_of_not_suppressible (dl : DiagnosticWithLocation)
    (hni : dl.code ∉ ignoredDiagnostics)
    (hns : dl.code ∉ expectErrorDiagnosticCodesToIgnore)
    (expectedErrors : List (Location × CallExpression)) :
    isIgnoredDiagnostic dl expectedErrors = .preserve := by
  unfold isIgnoredDiagnostic
  rw [contains_eq_decide_mem, decide_eq_false hni,
    contains_eq_decide_mem, decide_eq_false hns]
  simp

/-- The classifier preserves every non-globally-ignored diagnostic whose
start offset no index entry contains. -/
lemma isIgnoredDiagnostic_eq_preserve_of_no_containing (dl : DiagnosticWithLocation)
    (hni : dl.code ∉ ignoredDiagnostics)
    (expectedErrors : List (Location × CallExpression))
    (hout : ∀ e ∈ expectedErrors, ¬ ContainsStart e.1 dl.fileName dl.start) :
    isIgnoredDiagnostic dl expectedErrors = .preserve := by
  by_cases hs : dl.code ∈ expectErrorDiagnosticCodesToIgnore
  · unfold isIgnoredDiagnostic
    rw [contains_eq_decide_mem, decide_eq_false hni,
      contains_eq_decide_mem, decide_eq_true hs,
      (findMatchingLocation_eq_none_iff dl.fileName dl.start expectedErrors).mpr hout]
    simp
  · exact isIgnoredDiagnostic_eq_preserve_of_not_suppressible dl hni hs expectedErrors

/-- Every entry of the Expected-Error Index carries, as its key, the span
freshly built from its assertion node's own file, start and end. -/
lemma index_location_eq_node_span (assertions : AssertionMap) :
    ∀ e ∈ parseErrorAssertionToLocation assertions,
      e.1 = (⟨e.2.fileName, e.2.start, e.2.endPos⟩ : Location) := by
  intro e he
  unfold parseErrorAssertionToLocation at he
  cases h : lookupAssertion Assertion.EXPECT_ERROR assertions with
  | none => rw [h] at he; cases he
  | some nodes =>
    rw [h] at he
    obtain ⟨node, -, rfl⟩ := List.mem_map.mp he
    rfl

/-- A duplicate removal record is harmless: removing a position twice is
removing it once. -/
lemma removeMatchedEntries_dup (i : Nat) (found : List Nat) :
    ∀ (k : Nat) (l : List (Location × CallExpression)),
      removeMatchedEntries (i :: i :: found) k l =
        removeMatchedEntries (i :: found) k l := by
  intro k l
  induction l generalizing k with
  | nil => rfl
  | cons e rest ih =>
    have hc : ∀ j : Nat, (i :: i :: found).contains j = (i :: found).contains j := by
      intro j
      cases hj : j == i <;> simp [List.contains_cons, hj]
    simp only [removeMatchedEntries, hc, ih]

/-! ## The claims -/

/-- C1: For every semantic diagnostic with a span whose code is in the
suppressible-inside-expectation set, the classifier returns a match exactly
when some entry of the Expected-Error Index has the same file name and
strictly contains the diagnostic's start offset (both bounds exclusive), and
the entry returned is the first such entry in the index's iteration order
(every earlier entry fails the containment test) — not the smallest or
innermost containing one; if no entry qualifies it returns preserve. -/
theorem c1_matched_iff_first_containing_entry (dl : DiagnosticWithLocation)
    (expectedErrors : List (Location × CallExpression))
    (hcode : dl.code ∈ expectErrorDiagnosticCodesToIgnore) :
    (∀ i, isIgnoredDiagnostic dl expectedErrors = .location i ↔
       ∃ e, expectedErrors[i]? = some e ∧ ContainsStart e.1 dl.fileName dl.start ∧
         ∀ j, j < i → ∀ e', expectedErrors[j]? = some e' →
           ¬ ContainsStart e'.1 dl.fileName dl.start) ∧
    (isIgnoredDiagnostic dl expectedErrors = .preserve ↔
       ∀ e ∈ expectedErrors, ¬ ContainsStart e.1 dl.fileName dl.start) := by
  have hni : ignoredDiagnostics.contains dl.code = false := by
    rw [contains_eq_decide_mem]
    exact decide_eq_false (suppressible_not_globally_ignored dl.code hcode)
  have hsc : expectErrorDiagnosticCodesToIgnore.contains dl.code = true := by
    rw [contains_eq_decide_mem]
    exact decide_eq_true hcode
  unfold isIgnoredDiagnostic
  rw [hni, hsc]
  simp only [Bool.false_eq_true, if_false, Bool.not_true]
  cases hfind : findMatchingLocation dl.fileName dl.start expectedErrors with
  | none =>
    have hall := (findMatchingLocation_eq_none_iff dl.fileName dl.start expectedErrors).mp hfind
    constructor
    · intro i
      constructor
      · intro h
        exact absurd h (by simp)
      · rintro ⟨e, he, hce, -⟩
        exact absurd hce (hall e (List.getElem?_mem he))
    · simpa using hall
  | some k =>
    obtain ⟨e0, he0, hce0, hfirst0⟩ :=
      (findMatchingLocation_eq_some_iff dl.fileName dl.start expectedErrors k).mp hfind
    constructor
    · intro i
      constructor
      · intro h
        obtain rfl : k = i := by
          cases h
          rfl
        exact ⟨e0, he0, hce0, hfirst0⟩
      · rintro ⟨e, he, hce, hfirst⟩
        have hsome : findMatchingLocation dl.fileName dl.start expectedErrors = some i :=
          (findMatchingLocation_eq_some_iff dl.fileName dl.start expectedErrors i).mpr
            ⟨e, he, hce, hfirst⟩
        rw [hfind] at hsome
        cases hsome
        rfl
    · constructor
      · intro h
        exact absurd h (by simp)
      · intro hall
        exact absurd hce0 (hall e0 (List.getElem?_mem he0))

/-- C1 witness: the diagnostic with suppressible code 2322 at offset 15 of
`a.ts` is matched to the first of two overlapping containing entries (not the
inner, smaller second one), and a diagnostic at offset 50 is preserved. -/
theorem c1_matched_iff_first_containing_entry_witness :
    isIgnoredDiagnostic ⟨2322, "a.ts", 15, "m"⟩
        [(⟨"a.ts", 10, 20⟩, ⟨"a.ts", 10, 20⟩), (⟨"a.ts", 12, 18⟩, ⟨"a.ts", 12, 18⟩)] =
      .location 0 ∧
    isIgnoredDiagnostic ⟨2322, "a.ts", 50, "m"⟩
        [(⟨"a.ts", 10, 20⟩, ⟨"a.ts", 10, 20⟩), (⟨"a.ts", 12, 18⟩, ⟨"a.ts", 12, 18⟩)] =
      .preserve :=
  ⟨((c1_matched_iff_first_containing_entry ⟨2322, "a.ts", 15, "m"⟩
      [(⟨"a.ts", 10, 20⟩, ⟨"a.ts", 10, 20⟩), (⟨"a.ts", 12, 18⟩, ⟨"a.ts", 12, 18⟩)]
      (by decide)).1 0).mpr
      ⟨(⟨"a.ts", 10, 20⟩, ⟨"a.ts", 10, 20⟩), rfl, by decide, by omega⟩,
   ((c1_matched_iff_first_containing_entry ⟨2322, "a.ts", 50, "m"⟩
      [(⟨"a.ts", 10, 20⟩, ⟨"a.ts", 10, 20⟩), (⟨"a.ts", 12, 18⟩, ⟨"a.ts", 12, 18⟩)]
      (by decide)).2).mpr (by decide)⟩

/-- C4: If configuration resolution returns a non-empty diagnostic list, the
pipeline terminates immediately with those diagnostics as `tsdErrors`, an
assertion count of 0 and no results; otherwise, if the syntactic-diagnostic
list is non-empty, it terminates the same way with the syntactic diagnostics;
in both cases extraction, evaluation and reconciliation never run, whatever
assertions the program contains (the output is the same for every program
field). -/
theorem c4_short_circuit_gates (input : TsdLiteInput) :
    (input.configDiagnostics ≠ [] →
      tsdLite input = ⟨0, [], some input.configDiagnostics⟩) ∧
    (input.configDiagnostics = [] → input.syntacticDiagnostics ≠ [] →
      tsdLite input = ⟨0, [], some input.syntacticDiagnostics⟩) := by
  constructor
  · intro h
    unfold tsdLite
    rw [if_pos (by simpa using h)]
  · intro h1 h2
    unfold tsdLite
    rw [if_neg (by simp [h1]), if_pos (by simpa using h2)]

/-- C4 witness: a config diagnostic short-circuits even though the program
contains an `expectError` assertion; with no config diagnostic, a syntactic
diagnostic short-circuits the same way. -/
theorem c4_short_circuit_gates_witness :
    tsdLite ⟨[⟨5055, none, 0, "bad config"⟩], [], [],
        [⟨"a.ts", .mk true "expectError" 0 9 []⟩], []⟩ =
      ⟨0, [], some [⟨5055, none, 0, "bad config"⟩]⟩ ∧
    tsdLite ⟨[], [⟨1005, some "a.ts", 3, "expected token"⟩], [],
        [⟨"a.ts", .mk true "expectError" 0 9 []⟩], []⟩ =
      ⟨0, [], some [⟨1005, some "a.ts", 3, "expected token"⟩]⟩ :=
  ⟨(c4_short_circuit_gates _).1 (by simp),
   (c4_short_circuit_gates _).2 rfl (by simp)⟩

/-- C3: Classifier precedence, for any semantic diagnostic with a span that
reaches classification (file present, not a dependency path). If its code is
in the globally ignored set, the classifier returns ignore for every index:
the diagnostic never matches an expectation entry and is never surfaced, even
when it lies inside an expectation span. Otherwise, if its code is not in the
suppressible-inside-expectation set, the classifier returns preserve for
every index, so the diagnostic is surfaced even when it lies inside an
expectation span, and never matches. The index is consulted only for
suppressible, non-globally-ignored codes (for the other codes the outcome
above holds for every `expectedErrors`). -/
theorem c3_classifier_precedence (d : Diagnostic) (dl : DiagnosticWithLocation)
    (expectedErrors : List (Location × CallExpression))
    (hwl : d.withLocation = some dl)
    (hdep : matchesNodeModulesRegex dl.fileName = false) :
    (dl.code ∈ ignoredDiagnostics →
       isIgnoredDiagnostic dl expectedErrors = .ignore ∧
       preservedOf expectedErrors d = none ∧
       matchedIndexOf expectedErrors d = none) ∧
    (dl.code ∉ ignoredDiagnostics → dl.code ∉ expectErrorDiagnosticCodesToIgnore →
       isIgnoredDiagnostic dl expectedErrors = .preserve ∧
       preservedOf expectedErrors d = some dl ∧
       matchedIndexOf expectedErrors d = none) := by
  constructor
  · intro hig
    have hb : ignoredDiagnostics.contains dl.code = true := by
      rw [contains_eq_decide_mem]
      exact decide_eq_true hig
    have hcl : isIgnoredDiagnostic dl expectedErrors = .ignore := by
      unfold isIgnoredDiagnostic
      rw [hb]
      simp
    exact ⟨hcl, by simp [preservedOf, hwl, hdep, hcl], by simp [matchedIndexOf, hwl, hdep, hcl]⟩
  · intro hni hns
    have hb1 : ignoredDiagnostics.contains dl.code = false := by
      rw [contains_eq_decide_mem]
      exact decide_eq_false hni
    have hb2 : expectErrorDiagnosticCodesToIgnore.contains dl.code = false := by
      rw [contains_eq_decide_mem]
      exact decide_eq_false hns
    have hcl : isIgnoredDiagnostic dl expectedErrors = .preserve := by
      unfold isIgnoredDiagnostic
      rw [hb1, hb2]
      simp
    exact ⟨hcl, by simp [preservedOf, hwl, hdep, hcl], by simp [matchedIndexOf, hwl, hdep, hcl]⟩

/-- C3 witness: a globally ignored code (1378) inside an expectation span is
classified ignore and contributes nothing; a non-suppressible code (2304,
"cannot find name") inside the same span is classified preserve and is
surfaced. -/
theorem c3_classifier_precedence_witness :
    (isIgnoredDiagnostic ⟨1378, "a.ts", 15, "m"⟩ [(⟨"a.ts", 10, 20⟩, ⟨"a.ts", 10, 20⟩)] =
        .ignore ∧
      preservedOf [(⟨"a.ts", 10, 20⟩, ⟨"a.ts", 10, 20⟩)] ⟨1378, some "a.ts", 15, "m"⟩ = none ∧
      matchedIndexOf [(⟨"a.ts", 10, 20⟩, ⟨"a.ts", 10, 20⟩)] ⟨1378, some "a.ts", 15, "m"⟩ = none) ∧
    (isIgnoredDiagnostic ⟨2304, "a.ts", 15, "m"⟩ [(⟨"a.ts", 10, 20⟩, ⟨"a.ts", 10, 20⟩)] =
        .preserve ∧
      preservedOf [(⟨"a.ts", 10, 20⟩, ⟨"a.ts", 10, 20⟩)] ⟨2304, some "a.ts", 15, "m"⟩ =
        some ⟨2304, "a.ts", 15, "m"⟩ ∧
      matchedIndexOf [(⟨"a.ts", 10, 20⟩, ⟨"a.ts", 10, 20⟩)] ⟨2304, some "a.ts", 15, "m"⟩ = none) :=
  ⟨(c3_classifier_precedence ⟨1378, some "a.ts", 15, "m"⟩ ⟨1378, "a.ts", 15, "m"⟩
      [(⟨"a.ts", 10, 20⟩, ⟨"a.ts", 10, 20⟩)] rfl (by decide)).1 (by decide),
   (c3_classifier_precedence ⟨2304, some "a.ts", 15, "m"⟩ ⟨2304, "a.ts", 15, "m"⟩
      [(⟨"a.ts", 10, 20⟩, ⟨"a.ts", 10, 20⟩)] rfl (by decide)).2 (by decide) (by decide)⟩

/-- C6 counterexample: the claim leaves every no-span semantic diagnostic
"either globally ignored or always preserved (surfaced as a failure)", but
the pipeline drops every such diagnostic unconditionally before
classification: the no-span diagnostic with code 2322 is not in the globally
ignored code set, yet it is never surfaced — here it reaches the
reconciliation loop and contributes neither a result nor a match. -/
theorem c6_counterexample :
    (2322 : Nat) ∉ ignoredDiagnostics ∧
    preservedOf [] ⟨2322, none, 5, "m"⟩ = none ∧
    matchedIndexOf [] ⟨2322, none, 5, "m"⟩ = none ∧
    reconcileDiagnostics [] [⟨2322, none, 5, "m"⟩] [] [] = ([], []) := by
  refine ⟨by decide, rfl, rfl, rfl⟩

/-- C6 as amended: every semantic diagnostic without a span is skipped by the
reconciliation loop unconditionally — it is never matched to an
expected-error assertion and never surfaced as a failure, independently of
the Expected-Error Index contents (in particular it is never conditionally
suppressed). -/
theorem c6_amended_no_span_dropped (d : Diagnostic) (h : d.file = none) :
    ∀ expectedErrors : List (Location × CallExpression),
      matchedIndexOf expectedErrors d = none ∧
      preservedOf expectedErrors d = none := by
  intro expectedErrors
  have hwl : d.withLocation = none := by
    simp [Diagnostic.withLocation, h]
  exact ⟨by simp [matchedIndexOf, hwl], by simp [preservedOf, hwl]⟩

/-- C6 amended witness: a concrete no-span diagnostic with a suppressible
code, against a non-empty index whose span contains its start offset, still
neither matches nor surfaces. -/
theorem c6_amended_no_span_dropped_witness :
    matchedIndexOf [(⟨"a.ts", 1, 9⟩, ⟨"a.ts", 1, 9⟩)] ⟨2322, none, 5, "m"⟩ = none ∧
    preservedOf [(⟨"a.ts", 1, 9⟩, ⟨"a.ts", 1, 9⟩)] ⟨2322, none, 5, "m"⟩ = none :=
  c6_amended_no_span_dropped ⟨2322, none, 5, "m"⟩ rfl [(⟨"a.ts", 1, 9⟩, ⟨"a.ts", 1, 9⟩)]

/-- C8: Every semantic diagnostic whose originating file path contains a
`node_modules` path segment is dropped silently before classification,
regardless of its code: it is never surfaced, never matched against any
expectation entry, and its presence in the semantic diagnostic list changes
nothing about the reconciliation loop's output. -/
theorem c8_dependency_diagnostics_dropped (d : Diagnostic) (fileName : String)
    (hf : d.file = some fileName) (hdep : matchesNodeModulesRegex fileName = true) :
    ∀ (expectedErrors : List (Location × CallExpression)),
      preservedOf expectedErrors d = none ∧
      matchedIndexOf expectedErrors d = none ∧
      ∀ (ds1 ds2 : List Diagnostic) (tsdResults : List TsdResult) (found : List Nat),
        reconcileDiagnostics expectedErrors (ds1 ++ d :: ds2) tsdResults found =
          reconcileDiagnostics expectedErrors (ds1 ++ ds2) tsdResults found := by
  intro expectedErrors
  have hwl : d.withLocation = some ⟨d.code, fileName, d.start, d.messageText⟩ := by
    simp [Diagnostic.withLocation, hf]
  have hp : preservedOf expectedErrors d = none := by
    simp [preservedOf, hwl, hdep]
  have hm : matchedIndexOf expectedErrors d = none := by
    simp [matchedIndexOf, hwl, hdep]
  refine ⟨hp, hm, ?_⟩
  intro ds1 ds2 tsdResults found
  rw [reconcileDiagnostics_eq, reconcileDiagnostics_eq]
  simp [List.filterMap_append, List.filterMap_cons, hp, hm]

/-- C8 witness: a diagnostic from `/p/node_modules/dep/index.d.ts` with a
suppressible code whose start lies inside an expectation span is neither
surfaced nor matched, and removing it from the diagnostic list leaves the
loop's output unchanged. -/
theorem c8_dependency_diagnostics_dropped_witness :
    preservedOf [(⟨"/p/node_modules/dep/index.d.ts", 1, 9⟩, ⟨"/p/node_modules/dep/index.d.ts", 1, 9⟩)]
        ⟨2322, some "/p/node_modules/dep/index.d.ts", 5, "m"⟩ = none ∧
    matchedIndexOf [(⟨"/p/node_modules/dep/index.d.ts", 1, 9⟩, ⟨"/p/node_modules/dep/index.d.ts", 1, 9⟩)]
        ⟨2322, some "/p/node_modules/dep/index.d.ts", 5, "m"⟩ = none ∧
    reconcileDiagnostics
        [(⟨"/p/node_modules/dep/index.d.ts", 1, 9⟩, ⟨"/p/node_modules/dep/index.d.ts", 1, 9⟩)]
        ([⟨2304, some "a.ts", 7, "x"⟩] ++ ⟨2322, some "/p/node_modules/dep/index.d.ts", 5, "m"⟩ :: []) [] [] =
      reconcileDiagnostics
        [(⟨"/p/node_modules/dep/index.d.ts", 1, 9⟩, ⟨"/p/node_modules/dep/index.d.ts", 1, 9⟩)]
        ([⟨2304, some "a.ts", 7, "x"⟩] ++ []) [] [] := by
  obtain ⟨hp, hm, hr⟩ := c8_dependency_diagnostics_dropped
    ⟨2322, some "/p/node_modules/dep/index.d.ts", 5, "m"⟩
    "/p/node_modules/dep/index.d.ts" rfl (by decide)
    [(⟨"/p/node_modules/dep/index.d.ts", 1, 9⟩, ⟨"/p/node_modules/dep/index.d.ts", 1, 9⟩)]
  exact ⟨hp, hm, hr [⟨2304, some "a.ts", 7, "x"⟩] [] [] []⟩

/-- C2: After a completed run (both gates passed), the final result list is
the evaluator results, then the preserved diagnostics, then one synthetic
failure per Expected-Error Index entry not matched by any semantic
diagnostic, in index order, carrying that entry's assertion node and the
fixed message "Expected an error, but found none."; every entry matched by
at least one diagnostic is removed and contributes nothing. The second
conjunct records that each entry's key is the span built from its own
assertion node, so the synthetic failure carries the assertion's own span. -/
theorem c2_finalize_expectations (input : TsdLiteInput)
    (h1 : input.configDiagnostics = []) (h2 : input.syntacticDiagnostics = []) :
    (tsdLite input).tsdResults =
      input.handleAssertionsResults
        ++ (input.semanticDiagnostics.filterMap
              (preservedOf (expectedErrorIndex input.program))).map TsdResult.diagnostic
        ++ (entriesNotSatisfying
              (fun i => decide (MatchedByAny (expectedErrorIndex input.program)
                 input.semanticDiagnostics i))
              0 (expectedErrorIndex input.program)).map
            (fun e => TsdResult.assertionWithMessage e.2 expectedErrorNotFoundMessage) ∧
    ∀ e ∈ expectedErrorIndex input.program,
      e.1 = (⟨e.2.fileName, e.2.start, e.2.endPos⟩ : Location) := by
  constructor
  · rw [tsdLite_completed input h1 h2]
  · exact index_location_eq_node_span (extractAssertions input.program).assertions

/-- C2 witness: in `exampleInput` the expectation is matched by the 2345
diagnostic, so it is removed and yields no synthetic failure, while the 2322
diagnostic outside the span is preserved; in `exampleInputNoDiag` nothing
matches it, so exactly one synthetic failure with the assertion's span and
the fixed message remains. -/
theorem c2_finalize_expectations_witness :
    (tsdLite exampleInput).tsdResults =
      [.evaluatorResult 0, .diagnostic ⟨2322, "a.ts", 50, "other"⟩] ∧
    (tsdLite exampleInputNoDiag).tsdResults =
      [.assertionWithMessage ⟨"a.ts", 10, 30⟩ expectedErrorNotFoundMessage] := by
  constructor
  · rw [(c2_finalize_expectations exampleInput rfl rfl).1]
    decide
  · rw [(c2_finalize_expectations exampleInputNoDiag rfl rfl).1]
    decide

/-- C5: When the only semantic diagnostic starts inside an expectation span
but its code is not suppressible (and not globally ignored, not from a
dependency path), the final result list contains both that diagnostic,
surfaced as a failure, and the synthetic "Expected an error, but found
none." failure for the assertion — a non-suppressible diagnostic is never
consumed as a match. -/
theorem c5_unsuppressible_inside_span_double_failure (input : TsdLiteInput)
    (h1 : input.configDiagnostics = []) (h2 : input.syntacticDiagnostics = [])
    (d : Diagnostic) (dl : DiagnosticWithLocation)
    (hsem : input.semanticDiagnostics = [d])
    (hwl : d.withLocation = some dl)
    (hdep : matchesNodeModulesRegex dl.fileName = false)
    (hni : dl.code ∉ ignoredDiagnostics)
    (hns : dl.code ∉ expectErrorDiagnosticCodesToIgnore)
    (e : Location × CallExpression) (he : e ∈ expectedErrorIndex input.program)
    (_hin : ContainsStart e.1 dl.fileName dl.start) :
    TsdResult.diagnostic dl ∈ (tsdLite input).tsdResults ∧
    TsdResult.assertionWithMessage e.2 expectedErrorNotFoundMessage ∈
      (tsdLite input).tsdResults := by
  have hcl := isIgnoredDiagnostic_eq_preserve_of_not_suppressible dl hni hns
    (expectedErrorIndex input.program)
  have hp : preservedOf (expectedErrorIndex input.program) d = some dl := by
    simp [preservedOf, hwl, hdep, hcl]
  have hm : matchedIndexOf (expectedErrorIndex input.program) d = none := by
    simp [matchedIndexOf, hwl, hdep, hcl]
  have hpred : ∀ i, decide (MatchedByAny (expectedErrorIndex input.program) [d] i) = false := by
    intro i
    apply decide_eq_false
    rintro ⟨d', hd', hmd'⟩
    obtain rfl := List.mem_singleton.mp hd'
    rw [hm] at hmd'
    cases hmd'
  rw [tsdLite_completed input h1 h2, hsem, entriesNotSatisfying_of_false _ hpred]
  constructor
  · simp [List.filterMap_cons, hp, List.mem_append]
  · simp only [List.mem_append]
    right
    exact List.mem_map_of_mem _ he

/-- C5 witness: `exampleInputUnsuppressible` yields both the surfaced 2304
diagnostic and the synthetic failure of the assertion whose span contains
its start offset. -/
theorem c5_unsuppressible_inside_span_double_failure_witness :
    TsdResult.diagnostic ⟨2304, "a.ts", 23, "boom"⟩ ∈
      (tsdLite exampleInputUnsuppressible).tsdResults ∧
    TsdResult.assertionWithMessage ⟨"a.ts", 10, 30⟩ expectedErrorNotFoundMessage ∈
      (tsdLite exampleInputUnsuppressible).tsdResults :=
  c5_unsuppressible_inside_span_double_failure exampleInputUnsuppressible rfl rfl
    ⟨2304, some "a.ts", 23, "boom"⟩ ⟨2304, "a.ts", 23, "boom"⟩ rfl rfl
    (by decide) (by decide) (by decide)
    (⟨"a.ts", 10, 30⟩, ⟨"a.ts", 10, 30⟩) (by decide) (by decide)

/-- C7: A semantic diagnostic whose start offset lies strictly outside every
expectation span of the index and whose code is not globally ignored (and
which reaches classification: it has a file outside dependency paths) always
appears in the final result list; the statement quantifies over every input,
so in particular adding unrelated expectation assertions elsewhere — any
program whose index still contains no span around this diagnostic — never
suppresses it. -/
theorem c7_outside_all_spans_always_surfaced (input : TsdLiteInput)
    (h1 : input.configDiagnostics = []) (h2 : input.syntacticDiagnostics = [])
    (d : Diagnostic) (dl : DiagnosticWithLocation)
    (hd : d ∈ input.semanticDiagnostics)
    (hwl : d.withLocation = some dl)
    (hdep : matchesNodeModulesRegex dl.fileName = false)
    (hni : dl.code ∉ ignoredDiagnostics)
    (hout : ∀ e ∈ expectedErrorIndex input.program,
      ¬ ContainsStart e.1 dl.fileName dl.start) :
    TsdResult.diagnostic dl ∈ (tsdLite input).tsdResults := by
  have hcl := isIgnoredDiagnostic_eq_preserve_of_no_containing dl hni
    (expectedErrorIndex input.program) hout
  have hp : preservedOf (expectedErrorIndex input.program) d = some dl := by
    simp [preservedOf, hwl, hdep, hcl]
  rw [tsdLite_completed input h1 h2]
  simp only [List.mem_append]
  left
  right
  exact List.mem_map_of_mem _ (List.mem_filterMap.mpr ⟨d, hd, hp⟩)

/-- C7 witness: the suppressible-code diagnostic at offset 50 of
`exampleInput` lies outside the single expectation span 10–30, so it is
surfaced even though the program contains an unrelated expectation. -/
theorem c7_outside_all_spans_always_surfaced_witness :
    TsdResult.diagnostic ⟨2322, "a.ts", 50, "other"⟩ ∈ (tsdLite exampleInput).tsdResults :=
  c7_outside_all_spans_always_surfaced exampleInput rfl rfl
    ⟨2322, some "a.ts", 50, "other"⟩ ⟨2322, "a.ts", 50, "other"⟩
    (by decide) rfl (by decide) (by decide) (by decide)

/-- C9: Matching is many-to-one and the index is never pruned during the
scan: the found list records, per diagnostic in order, the match computed
against the full index (the same `expectedErrors` for every diagnostic, even
after an earlier diagnostic matched the same entry); when every diagnostic
of the list matches the same entry `i`, all of them are suppressed and the
found list is just that position repeated; and a duplicate removal record is
harmless — deleting a position twice equals deleting it once, so the entry
is removed once and (by the C2 shape of the final list) yields no synthetic
failure. -/
theorem c9_many_to_one_unpruned_index (expectedErrors : List (Location × CallExpression))
    (diags : List Diagnostic) :
    (∀ (tsdResults : List TsdResult) (found : List Nat),
       (reconcileDiagnostics expectedErrors diags tsdResults found).2 =
         found ++ diags.filterMap (matchedIndexOf expectedErrors)) ∧
    (∀ i, (∀ d ∈ diags, matchedIndexOf expectedErrors d = some i) →
       ∀ tsdResults : List TsdResult,
         reconcileDiagnostics expectedErrors diags tsdResults [] =
           (tsdResults, List.replicate diags.length i)) ∧
    (∀ (i : Nat) (found : List Nat) (k : Nat),
       removeMatchedEntries (i :: i :: found) k expectedErrors =
         removeMatchedEntries (i :: found) k expectedErrors) := by
  refine ⟨?_, ?_, ?_⟩
  · intro tsdResults found
    rw [reconcileDiagnostics_eq]
  · intro i hall tsdResults
    rw [reconcileDiagnostics_eq]
    have hrep : ∀ l : List Diagnostic,
        (∀ d ∈ l, matchedIndexOf expectedErrors d = some i) →
        l.filterMap (matchedIndexOf expectedErrors) = List.replicate l.length i := by
      intro l
      induction l with
      | nil => intro _; rfl
      | cons d rest ih =>
        intro h
        rw [List.filterMap_cons, h d (List.mem_cons_self d rest),
          List.length_cons, List.replicate_succ,
          ih (fun d' hd' => h d' (List.mem_cons_of_mem d hd'))]
    have hnone : diags.filterMap (preservedOf expectedErrors) = [] := by
      rw [List.filterMap_eq_nil_iff]
      intro d hd
      exact preservedOf_eq_none_of_matched expectedErrors d i (hall d hd)
    rw [hnone, hrep diags hall]
    simp
  · intro i found k
    exact removeMatchedEntries_dup i found k expectedErrors

/-- C9 witness: two suppressible diagnostics inside the same single
expectation span both match entry 0 and both are suppressed; removing
position 0 twice equals removing it once. -/
theorem c9_many_to_one_unpruned_index_witness :
    reconcileDiagnostics [(⟨"a.ts", 10, 30⟩, ⟨"a.ts", 10, 30⟩)]
        [⟨2345, some "a.ts", 15, "m1"⟩, ⟨2322, some "a.ts", 20, "m2"⟩] [] [] =
      ([], List.replicate 2 0) ∧
    removeMatchedEntries [0, 0] 0 [(⟨"a.ts", 10, 30⟩, ⟨"a.ts", 10, 30⟩)] =
      removeMatchedEntries [0] 0 [(⟨"a.ts", 10, 30⟩, ⟨"a.ts", 10, 30⟩)] := by
  obtain ⟨-, h2, h3⟩ := c9_many_to_one_unpruned_index
    [(⟨"a.ts", 10, 30⟩, ⟨"a.ts", 10, 30⟩)]
    [⟨2345, some "a.ts", 15, "m1"⟩, ⟨2322, some "a.ts", 20, "m2"⟩]
  exact ⟨h2 0 (by decide) [], h3 0 [] 0⟩

/-! ## Lemmas about assertion extraction (for C10) -/

/-- Inserting a node for kind `a` makes it a member of kind `a`'s
collection. -/
lemma lookupAssertion_insert_self (m : AssertionMap) (a : Assertion)
    (x : CallExpression) : MemAssertion a x (insertAssertion m a x) := by
  induction m with
  | nil =>
    exact ⟨[x], by simp [insertAssertion, lookupAssertion], by simp⟩
  | cons p rest ih =>
    obtain ⟨k, ns⟩ := p
    by_cases hk : k = a
    · subst hk
      exact ⟨ns ++ [x], by simp [insertAssertion, lookupAssertion], by simp⟩
    · obtain ⟨ns', hl, hm⟩ := ih
      exact ⟨ns', by simp [insertAssertion, lookupAssertion, hk, hl], hm⟩

/-- Insertion preserves existing membership (for any kinds). -/
lemma memAssertion_insert (m : AssertionMap) (a a' : Assertion)
    (x x' : CallExpression) (h : MemAssertion a x m) :
    MemAssertion a x (insertAssertion m a' x') := by
  induction m with
  | nil =>
    obtain ⟨ns, hl, -⟩ := h
    simp [lookupAssertion] at hl
  | cons p rest ih =>
    obtain ⟨k, ns⟩ := p
    obtain ⟨ns0, hl, hm⟩ := h
    by_cases hk : k = a'
    · subst hk
      by_cases hka : k = a
      · subst hka
        simp [lookupAssertion] at hl
        subst hl
        exact ⟨ns ++ [x'], by simp [insertAssertion, lookupAssertion],
          List.mem_append_left _ hm⟩
      · simp only [lookupAssertion, if_neg hka] at hl
        exact ⟨ns0, by simp [insertAssertion, lookupAssertion, hka, hl], hm⟩
    · by_cases hka : k = a
      · subst hka
        simp [lookupAssertion] at hl
        subst hl
        exact ⟨ns, by simp [insertAssertion, lookupAssertion, hk], hm⟩
      · simp only [lookupAssertion, if_neg hka] at hl
        obtain ⟨ns', hl', hm'⟩ := ih ⟨ns0, hl, hm⟩
        exact ⟨ns', by simp [insertAssertion, lookupAssertion, hk, hka, hl'], hm'⟩

mutual

/-- Visiting a tree preserves existing membership in the extraction map. -/
theorem visit_memAssertion_mono (fileName : String) (a : Assertion)
    (x : CallExpression) (acc : AssertionMap) (t : TsNode)
    (h : MemAssertion a x acc) :
    MemAssertion a x (visit fileName acc t) := by
  cases t with
  | mk isCall callee s e children =>
    refine visitList_memAssertion_mono fileName a x
      (if isCall then
        match assertionOfString callee with
        | some assertion => insertAssertion acc assertion ⟨fileName, s, e⟩
        | none => acc
       else acc) children ?_
    cases isCall with
    | false => simpa using h
    | true =>
      cases hs : assertionOfString callee with
      | none => simpa [hs] using h
      | some assertion =>
        simpa [hs] using memAssertion_insert acc a assertion x ⟨fileName, s, e⟩ h

/-- Visiting a child list preserves existing membership. -/
theorem visitList_memAssertion_mono (fileName : String) (a : Assertion)
    (x : CallExpression) (acc : AssertionMap) (cs : List TsNode)
    (h : MemAssertion a x acc) :
    MemAssertion a x (visitList fileName acc cs) := by
  cases cs with
  | nil => simpa [visitList] using h
  | cons n rest =>
    exact visitList_memAssertion_mono fileName a x (visit fileName acc n) rest
      (visit_memAssertion_mono fileName a x acc n h)

end

/-- If visiting one member of a child list establishes membership (for every
accumulator), visiting the whole list establishes it. -/
lemma visitList_reaches (fileName : String) (a : Assertion) (x : CallExpression)
    (c : TsNode) :
    ∀ (cs : List TsNode), c ∈ cs →
      (∀ acc, MemAssertion a x (visit fileName acc c)) →
      ∀ acc, MemAssertion a x (visitList fileName acc cs) := by
  intro cs
  induction cs with
  | nil => intro h; cases h
  | cons n rest ih =>
    intro hmem hc acc
    rcases List.mem_cons.mp hmem with rfl | hmem'
    · exact visitList_memAssertion_mono fileName a x _ rest (hc acc)
    · exact ih hmem' hc (visit fileName acc n)

/-- A recognized call expression occurring anywhere in a visited tree ends up
in the extraction map, whatever the accumulator. -/
lemma visit_adds_occurring_call (fileName : String) (a : Assertion)
    (node t : TsNode) (hocc : OccursIn node t) :
    node.isCallExpression = true →
    assertionOfString node.calleeText = some a →
    ∀ acc : AssertionMap,
      MemAssertion a ⟨fileName, node.start, node.endPos⟩ (visit fileName acc t) := by
  induction hocc with
  | refl =>
    intro hcall hname acc
    cases node with
    | mk isCall callee s e children =>
      have hc : isCall = true := hcall
      have hn : assertionOfString callee = some a := hname
      subst hc
      refine visitList_memAssertion_mono fileName a _ _ children ?_
      simpa [hn] using lookupAssertion_insert_self acc a ⟨fileName, s, e⟩
  | child hc hsub ih =>
    rename_i c t
    intro hcall hname acc
    cases t with
    | mk isCall callee s e children =>
      exact visitList_reaches fileName a _ c children hc (ih hcall hname) _

/-- Folding the per-file visits over the program preserves membership. -/
lemma foldl_visit_mono (a : Assertion) (x : CallExpression)
    (program : List SourceFile) :
    ∀ acc, MemAssertion a x acc →
      MemAssertion a x
        (program.foldl (fun acc sourceFile => visit sourceFile.fileName acc sourceFile.root) acc) := by
  induction program with
  | nil => intro acc h; exact h
  | cons sf rest ih =>
    intro acc h
    rw [List.foldl_cons]
    exact ih _ (visit_memAssertion_mono sf.fileName a x acc sf.root h)

/-- If visiting one member file of the program establishes membership (for
every accumulator), folding over the whole program establishes it. -/
lemma foldl_visit_reaches (a : Assertion) (x : CallExpression) (sf : SourceFile) :
    ∀ (program : List SourceFile), sf ∈ program →
      (∀ acc, MemAssertion a x (visit sf.fileName acc sf.root)) →
      ∀ acc, MemAssertion a x
        (program.foldl (fun acc sourceFile => visit sourceFile.fileName acc sourceFile.root) acc) := by
  intro program
  induction program with
  | nil => intro h; cases h
  | cons s rest ih =>
    intro hmem hv acc
    rw [List.foldl_cons]
    rcases List.mem_cons.mp hmem with rfl | hmem'
    · exact foldl_visit_mono a x rest _ (hv acc)
    · exact ih hmem' hv _

/-- The count fold is the sum of the per-kind collection sizes. -/
lemma foldl_count_eq_sum (m : AssertionMap) :
    ∀ c : Nat, m.foldl (fun count p => count + p.2.length) c =
      c + (m.map (fun p => p.2.length)).sum := by
  induction m with
  | nil => intro c; simp
  | cons p rest ih =>
    intro c
    simp [List.foldl_cons, ih, Nat.add_assoc]

/-- C10: Assertion extraction traverses every source file of the checked
program, not only the input test file: a call expression whose callee text
equals a recognized assertion identifier, occurring anywhere in any program
file (in particular in a file the test file transitively imports), is
recorded in the extraction map under its kind; and `assertionCount` is the
sum of the per-kind collection sizes over all program files. -/
theorem c10_extraction_traverses_all_program_files (program : List SourceFile)
    (sf : SourceFile) (hsf : sf ∈ program)
    (node : TsNode) (hocc : OccursIn node sf.root)
    (hcall : node.isCallExpression = true)
    (a : Assertion) (hname : assertionOfString node.calleeText = some a) :
    MemAssertion a ⟨sf.fileName, node.start, node.endPos⟩
      (extractAssertions program).assertions ∧
    (extractAssertions program).assertionCount =
      ((extractAssertions program).assertions.map (fun p => p.2.length)).sum := by
  constructor
  · exact foldl_visit_reaches a ⟨sf.fileName, node.start, node.endPos⟩ sf program hsf
      (visit_adds_occurring_call sf.fileName a node sf.root hocc hcall hname) []
  · show ((extractAssertions program).assertions).foldl
        (fun count p => count + p.2.length) 0 =
      ((extractAssertions program).assertions.map (fun p => p.2.length)).sum
    rw [foldl_count_eq_sum]
    simp

/-- C10 witness: the `expectType` call sits in `lib.ts`, the second program
file (the one the test file imports), yet is extracted and counted: the
count is 1, the sum of the per-kind collection sizes. -/
theorem c10_extraction_traverses_all_program_files_witness :
    MemAssertion .EXPECT_TYPE ⟨"lib.ts", 5, 25⟩
      (extractAssertions
        [⟨"test.ts", .mk false "" 0 10 []⟩,
         ⟨"lib.ts", .mk false "" 0 50 [.mk true "expectType" 5 25 []]⟩]).assertions ∧
    (extractAssertions
        [⟨"test.ts", .mk false "" 0 10 []⟩,
         ⟨"lib.ts", .mk false "" 0 50 [.mk true "expectType" 5 25 []]⟩]).assertionCount =
      ((extractAssertions
        [⟨"test.ts", .mk false "" 0 10 []⟩,
         ⟨"lib.ts", .mk false "" 0 50 [.mk true "expectType" 5 25 []]⟩]).assertions.map
          (fun p => p.2.length)).sum :=
  c10_extraction_traverses_all_program_files
    [⟨"test.ts", .mk false "" 0 10 []⟩,
     ⟨"lib.ts", .mk false "" 0 50 [.mk true "expectType" 5 25 []]⟩]
    ⟨"lib.ts", .mk false "" 0 50 [.mk true "expectType" 5 25 []]⟩
    (List.mem_cons_of_mem _ (List.mem_cons_self _ _))
    (.mk true "expectType" 5 25 [])
    (OccursIn.child (List.mem_singleton.mpr rfl) (OccursIn.refl _))
    rfl .EXPECT_TYPE (by decide)

end TsdLite
